import Mathlib

/-!
Verification of the book-catalog manager in `src/index.py`.

The program has two classes:

* `Book` — a record with fields `id`, `title`, `author`, `year`, `status`;
  `Book.__init__` always sets `status` to `"в наличии"`.
* `Library` — holds `books : List Book` and a backing JSON file; operations
  `load_books`, `save_books`, `add_book`, `remove_book`, `search_books`,
  `get_all_books`, `change_book_status`.

The embedding below has two layers.

The typed layer models `Library`'s in-memory operations.  All books built by
the program itself have an integer `id`, string `title`/`author`/`status`
and integer `year`, so `Book` is a typed structure here.  The backing file
is modelled as `Option (List Book)`: `none` when the file does not exist,
`some bs` when the file holds the serialized snapshot of `bs`.  The fact
that serialization really is faithful (so that carrying a `List Book`
instead of JSON text loses nothing) is proved separately in the JSON layer
(theorem for the save/load round trip).

The dynamic JSON layer models `load_books` / `save_books` /
`_create_book_from_dict` / `_books_to_dict` over an explicit JSON value
type, including the exceptions Python raises, because `load_books` only
catches `json.JSONDecodeError` and the loaded dictionaries are accessed
with unchecked key lookups.
-/

/-- One book record, as in `Book.__init__` of `src/index.py` (`id`, `title`,
`author`, `year`, `status`).  In every book the program itself constructs,
`id` and `year` are Python ints and the other fields strings. -/
structure Book where
  id : Int
  title : String
  author : String
  year : Int
  status : String
deriving DecidableEq, Repr

/-- `Book(title, author, year, id)`: the constructor always initializes
`status` to `"в наличии"` (line 20 of `src/index.py`). -/
def mkBook (title author : String) (year : Int) (id : Int) : Book :=
  { id := id, title := title, author := author, year := year, status := "в наличии" }

/-- The state of a `Library`: the in-memory list `self.books` together with
the backing file, `none` when absent, `some bs` when it holds the
serialized snapshot of `bs` (serialization fidelity is proved in the JSON
layer below). -/
structure LibState where
  books : List Book
  file : Option (List Book)
deriving DecidableEq, Repr

/-- Python's `max(l, default=0)` over a list of ints: `0` on the empty
list, the maximum element otherwise (used at line 83 of `src/index.py`). -/
def pyMaxD0 : List Int → Int
  | [] => 0
  | x :: xs => xs.foldl max x

/-- `Library.save_books`: overwrite the backing file with the snapshot of
the current in-memory list. -/
def saveBooks (st : LibState) : LibState :=
  { st with file := some st.books }

/-- `Library.add_book(title, author, year)`: computes
`max([book.id for book in self.books], default=0) + 1`, appends a fresh
`Book` (status `"в наличии"`), saves, and returns the new id. -/
def addBook (st : LibState) (title author : String) (year : Int) : LibState × Int :=
  let new_id := pyMaxD0 (st.books.map Book.id) + 1
  let new_book := mkBook title author year new_id
  (saveBooks { st with books := st.books ++ [new_book] }, new_id)

/-- `Library.remove_book(book_id)`: reassigns `self.books` to the list
with every book of that id filtered out, then saves and returns `True`
exactly when the list got shorter. -/
def removeBook (st : LibState) (book_id : Int) : LibState × Bool :=
  let kept := st.books.filter fun book => book.id ≠ book_id
  if kept.length < st.books.length then
    (saveBooks { st with books := kept }, true)
  else
    ({ st with books := kept }, false)

/-- Python's `str.lower` on one character, for the character ranges this
program compares (ASCII letters are mapped `A–Z` to `a–z`; digits, the
minus sign and everything else relevant to the year comparison are
unchanged). -/
def pyLowerChar (c : Char) : Char :=
  if 65 ≤ c.toNat ∧ c.toNat ≤ 90 then Char.ofNat (c.toNat + 32) else c

/-- Python's `str.lower` on a whole string. -/
def pyLower (s : String) : String :=
  ⟨s.data.map pyLowerChar⟩

/-- Does `needle` occur at the head of `hay`? (helper for Python's `in`). -/
def listStartsWith : List Char → List Char → Bool
  | [], _ => true
  | _ :: _, [] => false
  | c :: cs, d :: ds => c = d && listStartsWith cs ds

/-- Does `needle` occur contiguously anywhere in `hay`? (Python's
substring test `needle in hay`). -/
def listContains (needle : List Char) : List Char → Bool
  | [] => listStartsWith needle []
  | d :: ds => listStartsWith needle (d :: ds) || listContains needle ds

/-- Python's `needle in hay` on strings. -/
def pyInStr (needle hay : String) : Bool :=
  listContains needle.data hay.data

/-- Python's `str(i)` for an int `i`; Lean's decimal rendering of `Int`
produces the same text (digits, with a leading `-` for negatives). -/
def pyIntStr (i : Int) : String :=
  toString i

/-- `Library.search_books(query)`: lowercases the query once, then filters
`self.books` keeping a book when the lowered query is a substring of the
lowered title or of the lowered author, or equals `str(book.year)`. -/
def searchBooks (st : LibState) (query : String) : List Book :=
  let q := pyLower query
  st.books.filter fun book =>
    pyInStr q (pyLower book.title) || pyInStr q (pyLower book.author) ||
      (q == pyIntStr book.year)

/-- `Library.get_all_books()`: returns `self.books`. -/
def getAllBooks (st : LibState) : List Book :=
  st.books

/-- The `for book in self.books` loop of `Library.change_book_status`:
scans for a book with a matching id; at a match, if the new status is one
of the two allowed values, replaces that book's status and stops
(returning the updated list); otherwise the loop keeps scanning.  Returns
`none` when the loop falls through without updating. -/
def changeLoop (book_id : Int) (new_status : String) : List Book → Option (List Book)
  | [] => none
  | book :: rest =>
    if book.id = book_id then
      if new_status = "в наличии" ∨ new_status = "выдана" then
        some ({ book with status := new_status } :: rest)
      else
        (changeLoop book_id new_status rest).map (book :: ·)
    else
      (changeLoop book_id new_status rest).map (book :: ·)

/-- `Library.change_book_status(book_id, new_status)`: on a successful
loop iteration saves and returns `True`; if the loop falls through, the
state is untouched and the result is `False`. -/
def changeBookStatus (st : LibState) (book_id : Int) (new_status : String) : LibState × Bool :=
  match changeLoop book_id new_status st.books with
  | some books' => (saveBooks { st with books := books' }, true)
  | none => (st, false)

/-- One user-level mutation of the system, plus `reload` for constructing
a fresh `Library` over the current backing file (re-running
`load_books`). -/
inductive Op where
  | add (title author : String) (year : Int)
  | remove (book_id : Int)
  | setStatus (book_id : Int) (new_status : String)
  | reload
deriving DecidableEq, Repr

/-- Apply one operation to the state.  `reload` models
`Library(filename)` being constructed again over the same file: a missing
file leaves the book list empty, an existing file yields its snapshot
(faithfulness of the textual round trip is the round-trip theorem in the
JSON layer). -/
def applyOp (st : LibState) : Op → LibState
  | .add title author year => (addBook st title author year).1
  | .remove book_id => (removeBook st book_id).1
  | .setStatus book_id new_status => (changeBookStatus st book_id new_status).1
  | .reload => { st with books := st.file.getD [] }

/-- Run a sequence of operations. -/
def run (st : LibState) (ops : List Op) : LibState :=
  ops.foldl applyOp st

/-- The initial state: a fresh `Library` with no backing file yet. -/
def initState : LibState :=
  { books := [], file := none }

/-- States the program itself can be in, starting from an absent backing
file: everything produced by some sequence of adds, removals, status
changes and reloads. -/
def reachable (st : LibState) : Prop :=
  ∃ ops : List Op, st = run initState ops

/-!  The dynamic JSON layer: `load_books`, `save_books`,
`_create_book_from_dict` and `_books_to_dict` over explicit JSON values,
with the exceptions Python raises.  `json.dump` followed by `json.load`
is the identity on these values, so the file is carried as the JSON value
itself. -/

/-- A JSON value as produced by `json.load` (floats are omitted: this
program never writes one). -/
inductive Json where
  | null
  | bool (b : Bool)
  | int (i : Int)
  | str (s : String)
  | arr (elems : List Json)
  | obj (fields : List (String × Json))

/-- The Python exceptions the load path can raise and does not catch:
`KeyError` from `book_dict['…']` on a dict without that key, `TypeError`
from indexing a non-dict with a string key or iterating a non-iterable. -/
inductive PyExc where
  | keyError
  | typeError
deriving DecidableEq, Repr

/-- A book as `_create_book_from_dict` actually builds it: Python checks
no field types, so each field holds whatever JSON value the dict had. -/
structure BookD where
  id : Json
  title : Json
  author : Json
  year : Json
  status : Json

/-- Python's `book_dict[key]`: the value when present (the program writes
each key once), `KeyError` otherwise. -/
def dictGet (fields : List (String × Json)) (key : String) : Except PyExc Json :=
  match fields.lookup key with
  | some v => .ok v
  | none => .error .keyError

/-- `Library._create_book_from_dict(book_dict)`: reads `title`, `author`,
`year`, `id` (the constructor arguments, left to right), then `status`,
with no validation of the values; indexing a non-dict raises `TypeError`. -/
def createBookFromDict (v : Json) : Except PyExc BookD :=
  match v with
  | .obj fields => do
    let title ← dictGet fields "title"
    let author ← dictGet fields "author"
    let year ← dictGet fields "year"
    let id ← dictGet fields "id"
    let status ← dictGet fields "status"
    pure { id := id, title := title, author := author, year := year, status := status }
  | _ => .error .typeError

/-- `Library._books_to_dict()`: the list of five-key dicts written by
`save_books`, keys in source order `id`, `title`, `author`, `year`,
`status`. -/
def booksToDict (books : List Book) : Json :=
  .arr (books.map fun book =>
    .obj [("id", .int book.id), ("title", .str book.title), ("author", .str book.author),
      ("year", .int book.year), ("status", .str book.status)])

/-- The contents of the backing file as `load_books` finds them. -/
inductive FileState where
  | missing
  | invalidJson
  | validJson (v : Json)

/-- The backing file right after `Library.save_books` ran on `books`:
it exists and parses back to exactly the value `_books_to_dict`
produced. -/
def saveBooksFile (books : List Book) : FileState :=
  .validJson (booksToDict books)

/-- The list comprehension
`[self._create_book_from_dict(book) for book in book_data]`: left to
right, stopping at the first exception. -/
def loadList : List Json → Except PyExc (List BookD)
  | [] => .ok []
  | v :: vs => do
    let b ← createBookFromDict v
    let bs ← loadList vs
    pure (b :: bs)

/-- `Library.load_books()`: a missing file leaves `self.books` as the
empty list from `__init__`; a file that fails JSON parsing raises
`json.JSONDecodeError`, which is caught and yields the empty list; a file
with a valid JSON value is iterated — a JSON array element-wise, a JSON
object over its keys (each a string, so indexing raises `TypeError`), a
JSON string over its characters (likewise `TypeError`); any other value
is not iterable (`TypeError`).  None of these exceptions is caught. -/
def loadBooks (fs : FileState) : Except PyExc (List BookD) :=
  match fs with
  | .missing => .ok []
  | .invalidJson => .ok []
  | .validJson v =>
    match v with
    | .arr elems => loadList elems
    | .obj fields => loadList (fields.map fun kv => Json.str kv.1)
    | .str s => loadList (s.data.map fun c => Json.str ⟨[c]⟩)
    | _ => .error .typeError

/-- The dynamic record `_create_book_from_dict` rebuilds from the dict
`_books_to_dict` wrote for `b`: every field is `b`'s, wrapped in its JSON
constructor. -/
def dynOfBook (b : Book) : BookD :=
  { id := .int b.id, title := .str b.title, author := .str b.author,
    year := .int b.year, status := .str b.status }

/-!  Spec-side definitions, written from the specification's words, to be
compared with the code-side definitions above. -/

/-- Modelled from the spec: the id `add` must return, "one more than the
current maximum id (or 1 for an empty catalog)". -/
def specNextId (books : List Book) : Int :=
  match (books.map Book.id).max? with
  | none => 1
  | some m => m + 1

/-- Modelled from the spec: `search`'s match predicate, "case-insensitive
substring match against `title` or `author`, OR exact string-equality
match against `year` (query compared as text to the record's year)". -/
def searchSpecMatches (query : String) (book : Book) : Bool :=
  pyInStr (pyLower query) (pyLower book.title) ||
    pyInStr (pyLower query) (pyLower book.author) ||
      (query == pyIntStr book.year)

/-- A sequence of `add_book` calls from a given state: the final state
together with the returned ids, in call order. -/
def runAdds (st : LibState) : List (String × String × Int) → LibState × List Int
  | [] => (st, [])
  | (title, author, year) :: rest =>
    let r := addBook st title author year
    let rr := runAdds r.1 rest
    (rr.1, r.2 :: rr.2)

/-- Every status in the list is one of the two enumerated values. -/
def statusInv (bs : List Book) : Prop :=
  ∀ b ∈ bs, b.status = "в наличии" ∨ b.status = "выдана"

/-- Both the in-memory list and any saved snapshot satisfy `statusInv`. -/
def stateStatusInv (st : LibState) : Prop :=
  statusInv st.books ∧ ∀ bs, st.file = some bs → statusInv bs

/-- The ids in the list are pairwise distinct. -/
def idsInv (bs : List Book) : Prop :=
  (bs.map Book.id).Pairwise (· ≠ ·)

/-- Both the in-memory list and any saved snapshot satisfy `idsInv`. -/
def stateIdsInv (st : LibState) : Prop :=
  idsInv st.books ∧ ∀ bs, st.file = some bs → idsInv bs

/-- A record with year 2020 (title and author share no text with the
query `"2020"`). -/
def bookYear2020 : Book :=
  { id := 1, title := "Dune", author := "Herbert", year := 2020, status := "в наличии" }

/-- A record with year 2021, otherwise like `bookYear2020`. -/
def bookYear2021 : Book :=
  { id := 2, title := "Dune", author := "Herbert", year := 2021, status := "в наличии" }

/-!  Helper lemmas. -/

theorem listStartsWith_nil (l : List Char) : listStartsWith [] l = true := by
  cases l <;> rfl

theorem listContains_nil (l : List Char) : listContains [] l = true := by
  induction l with
  | nil => rfl
  | cons d ds ih => simp [listContains, listStartsWith_nil]

theorem pyInStr_left_empty (s : String) : pyInStr "" s = true := by
  simp [pyInStr, listContains_nil]

theorem string_ext {s t : String} (h : s.data = t.data) : s = t := by
  cases s; cases t; exact congrArg String.mk h

/-!  C9: searching with the empty query. -/

/-- C9: for every store, searching with the empty string as query returns
every record in the store (the empty string is a substring of every
title), not an empty result. -/
theorem search_empty_query_returns_all (st : LibState) : searchBooks st "" = st.books := by
  have hq : pyLower "" = "" := rfl
  simp [searchBooks, hq, pyInStr_left_empty]

/-!  C10: ids are reused over time. -/

/-- C10: ids are not unique over time: starting from an empty store, two
adds return ids 1 and 2, removing id 2 succeeds, and the next add returns
id 2 again — an id that had already been assigned to (and returned for) a
previously removed record. -/
theorem id_reused_after_remove :
    (addBook initState "Dune" "Herbert" 1965).2 = 1 ∧
    (addBook (addBook initState "Dune" "Herbert" 1965).1 "Foundation" "Asimov" 1951).2 = 2 ∧
    (removeBook (addBook (addBook initState "Dune" "Herbert" 1965).1 "Foundation" "Asimov" 1951).1 2).2 = true ∧
    (addBook (removeBook (addBook (addBook initState "Dune" "Herbert" 1965).1 "Foundation" "Asimov" 1951).1 2).1 "Solaris" "Lem" 1961).2 = 2 := by
  decide

/-!  C1: behaviour of the load path. -/

/-- C1 counterexample: a backing file holding the valid JSON text `[{}]`
— existing but not validly structured — makes `load_books` raise an
uncaught `KeyError` (from `book_dict['title']`) instead of producing an
empty record set. -/
theorem load_malformed_shape_raises :
    loadBooks (FileState.validJson (Json.arr [Json.obj []])) = Except.error PyExc.keyError ∧
    loadBooks (FileState.validJson (Json.arr [Json.obj []])) ≠ Except.ok [] := by
  refine ⟨rfl, fun h => ?_⟩
  rw [show loadBooks (FileState.validJson (Json.arr [Json.obj []])) = Except.error PyExc.keyError from rfl] at h
  exact Except.noConfusion h

/-- C1 amended: loading from a missing file produces an empty catalog,
and loading from a file whose contents fail JSON parsing (the
`json.JSONDecodeError` case) also produces an empty catalog without
raising; a file whose contents are valid JSON but not a list of
well-formed record objects instead raises an uncaught exception. -/
theorem load_missing_or_undecodable_is_empty :
    loadBooks FileState.missing = Except.ok [] ∧
    loadBooks FileState.invalidJson = Except.ok [] :=
  ⟨rfl, rfl⟩

/-!  C5: the save/load round trip. -/

theorem loadList_booksToDict (books : List Book) :
    loadList (books.map fun book =>
      Json.obj [("id", Json.int book.id), ("title", Json.str book.title),
        ("author", Json.str book.author), ("year", Json.int book.year),
        ("status", Json.str book.status)]) = Except.ok (books.map dynOfBook) := by
  induction books with
  | nil => rfl
  | cons b bs ih =>
    have hb : createBookFromDict
        (Json.obj [("id", Json.int b.id), ("title", Json.str b.title),
          ("author", Json.str b.author), ("year", Json.int b.year),
          ("status", Json.str b.status)]) = Except.ok (dynOfBook b) := rfl
    simp only [List.map_cons, loadList, hb, ih]
    rfl

/-- C5: serializing an in-memory catalog with `save_books` and loading
the file back yields exactly the images of the original records, in the
same order; `dynOfBook` wraps each of the five fields (`id`, `title`,
`author`, `year`, `status`) in its JSON constructor unchanged, so ids,
titles, authors, years and statuses all survive the round trip. -/
theorem save_load_round_trip (books : List Book) :
    loadBooks (saveBooksFile books) = Except.ok (books.map dynOfBook) := by
  have h : loadBooks (saveBooksFile books) = loadList (books.map fun book =>
      Json.obj [("id", Json.int book.id), ("title", Json.str book.title),
        ("author", Json.str book.author), ("year", Json.int book.year),
        ("status", Json.str book.status)]) := rfl
  rw [h, loadList_booksToDict]

/-!  C6: removal. -/

theorem removeBook_drop_iff (books : List Book) (book_id : Int) :
    ((books.filter fun book => book.id ≠ book_id).length < books.length) ↔
      ∃ b ∈ books, b.id = book_id := by
  constructor
  · intro h
    obtain ⟨b, hb, hnb⟩ := List.length_filter_lt_length_iff_exists.mp h
    exact ⟨b, hb, by simpa using hnb⟩
  · intro ⟨b, hb, hid⟩
    exact List.length_filter_lt_length_iff_exists.mpr ⟨b, hb, by simpa using hid⟩

/-- C6: `remove_book` returns `True` exactly when a record with the id
was present; the in-memory list always becomes the filtered list (which
is unchanged when no record matched); on success the file is the new
snapshot; on failure nothing changes at all. -/
theorem remove_book_spec (st : LibState) (book_id : Int) :
    ((removeBook st book_id).2 = true ↔ ∃ b ∈ st.books, b.id = book_id) ∧
    (removeBook st book_id).1.books = (st.books.filter fun book => book.id ≠ book_id) ∧
    ((removeBook st book_id).2 = true →
      (removeBook st book_id).1.file = some ((removeBook st book_id).1.books)) ∧
    ((removeBook st book_id).2 = false → (removeBook st book_id).1 = st) := by
  by_cases h : ((st.books.filter fun book => book.id ≠ book_id).length < st.books.length)
  · have hex := (removeBook_drop_iff st.books book_id).mp h
    simp only [ne_eq, decide_not] at h
    simp [removeBook, saveBooks, h, hex]
  · have hnex : ¬ ∃ b ∈ st.books, b.id = book_id :=
      fun hx => h ((removeBook_drop_iff st.books book_id).mpr hx)
    have hself : (st.books.filter fun book => book.id ≠ book_id) = st.books := by
      rw [List.filter_eq_self]
      intro b hb
      have hbne : b.id ≠ book_id := fun hid => hnex ⟨b, hb, hid⟩
      simpa using hbne
    simp only [ne_eq, decide_not] at h hself
    simp [removeBook, h, hnex, hself]

/-- C6 witness: on a one-book store, removing id 1 succeeds and persists
the new (empty) snapshot. -/
theorem remove_book_spec_w :
    (removeBook { books := [mkBook "Dune" "Herbert" 1965 1], file := none } 1).2 = true ∧
    (removeBook { books := [mkBook "Dune" "Herbert" 1965 1], file := none } 1).1.file =
      some ((removeBook { books := [mkBook "Dune" "Herbert" 1965 1], file := none } 1).1.books) := by
  have h := remove_book_spec { books := [mkBook "Dune" "Herbert" 1965 1], file := none } 1
  have ht : (removeBook { books := [mkBook "Dune" "Herbert" 1965 1], file := none } 1).2 = true :=
    h.1.mpr ⟨mkBook "Dune" "Herbert" 1965 1, by simp, rfl⟩
  exact ⟨ht, h.2.2.1 ht⟩

/-!  C4: the status-change operation, via lemmas about its loop. -/

theorem changeLoop_nil (book_id : Int) (new_status : String) :
    changeLoop book_id new_status [] = none :=
  rfl

theorem changeLoop_cons_hit (book_id : Int) (new_status : String) (b : Book) (rest : List Book)
    (hid : b.id = book_id) (hns : new_status = "в наличии" ∨ new_status = "выдана") :
    changeLoop book_id new_status (b :: rest) = some ({ b with status := new_status } :: rest) := by
  simp [changeLoop, hid, hns]

theorem changeLoop_cons_miss (book_id : Int) (new_status : String) (b : Book) (rest : List Book)
    (hmiss : ¬ (b.id = book_id ∧ (new_status = "в наличии" ∨ new_status = "выдана"))) :
    changeLoop book_id new_status (b :: rest) =
      (changeLoop book_id new_status rest).map (b :: ·) := by
  by_cases hid : b.id = book_id
  · have hns : ¬ (new_status = "в наличии" ∨ new_status = "выдана") := fun hns => hmiss ⟨hid, hns⟩
    simp [changeLoop, hid, hns]
  · simp [changeLoop, hid]

theorem changeLoop_isSome_iff (book_id : Int) (new_status : String) (bs : List Book) :
    (changeLoop book_id new_status bs).isSome = true ↔
      ((∃ b ∈ bs, b.id = book_id) ∧ (new_status = "в наличии" ∨ new_status = "выдана")) := by
  induction bs with
  | nil => simp [changeLoop_nil]
  | cons b rest ih =>
    by_cases hhit : b.id = book_id ∧ (new_status = "в наличии" ∨ new_status = "выдана")
    · rw [changeLoop_cons_hit book_id new_status b rest hhit.1 hhit.2]
      exact ⟨fun _ => ⟨⟨b, List.mem_cons_self b rest, hhit.1⟩, hhit.2⟩, fun _ => rfl⟩
    · rw [changeLoop_cons_miss book_id new_status b rest hhit]
      rw [show ((changeLoop book_id new_status rest).map (b :: ·)).isSome =
        (changeLoop book_id new_status rest).isSome from by cases changeLoop book_id new_status rest <;> rfl]
      rw [ih]
      constructor
      · intro ⟨⟨x, hx, hxid⟩, hv⟩
        exact ⟨⟨x, List.mem_cons_of_mem b hx, hxid⟩, hv⟩
      · intro ⟨⟨x, hx, hxid⟩, hv⟩
        rcases List.mem_cons.mp hx with hx | hx
        · exact absurd ⟨hx ▸ hxid, hv⟩ hhit
        · exact ⟨⟨x, hx, hxid⟩, hv⟩

theorem changeLoop_some_ids (book_id : Int) (new_status : String) :
    ∀ (bs bs' : List Book), changeLoop book_id new_status bs = some bs' →
      bs'.map Book.id = bs.map Book.id := by
  intro bs
  induction bs with
  | nil => intro bs' h; exact absurd h (by simp [changeLoop_nil])
  | cons b rest ih =>
    intro bs' h
    by_cases hhit : b.id = book_id ∧ (new_status = "в наличии" ∨ new_status = "выдана")
    · rw [changeLoop_cons_hit book_id new_status b rest hhit.1 hhit.2] at h
      obtain rfl := (Option.some.injEq _ _).mp h
      simp
    · rw [changeLoop_cons_miss book_id new_status b rest hhit] at h
      obtain ⟨a, ha, rfl⟩ := Option.map_eq_some'.mp h
      simpa using ih a ha

theorem changeLoop_some_mem (book_id : Int) (new_status : String) :
    ∀ (bs bs' : List Book), changeLoop book_id new_status bs = some bs' →
      ∀ b' ∈ bs', b' ∈ bs ∨ b'.status = new_status := by
  intro bs
  induction bs with
  | nil => intro bs' h; exact absurd h (by simp [changeLoop_nil])
  | cons b rest ih =>
    intro bs' h b' hb'
    by_cases hhit : b.id = book_id ∧ (new_status = "в наличии" ∨ new_status = "выдана")
    · rw [changeLoop_cons_hit book_id new_status b rest hhit.1 hhit.2] at h
      obtain rfl := (Option.some.injEq _ _).mp h
      rcases List.mem_cons.mp hb' with hb' | hb'
      · right; rw [hb']
      · left; exact List.mem_cons_of_mem b hb'
    · rw [changeLoop_cons_miss book_id new_status b rest hhit] at h
      obtain ⟨a, ha, rfl⟩ := Option.map_eq_some'.mp h
      rcases List.mem_cons.mp hb' with hb' | hb'
      · left; exact hb' ▸ List.mem_cons_self b rest
      · rcases ih a ha b' hb' with hin | hst
        · left; exact List.mem_cons_of_mem b hin
        · right; exact hst

theorem changeLoop_some_eq_map (book_id : Int) (new_status : String) :
    ∀ (bs bs' : List Book), (bs.map Book.id).Pairwise (· ≠ ·) →
      changeLoop book_id new_status bs = some bs' →
      bs' = bs.map fun b => if b.id = book_id then { b with status := new_status } else b := by
  intro bs
  induction bs with
  | nil => intro bs' _ h; exact absurd h (by simp [changeLoop_nil])
  | cons b rest ih =>
    intro bs' hpw h
    have hpw2 : (b.id :: rest.map Book.id).Pairwise (· ≠ ·) := hpw
    have hpw' := List.pairwise_cons.mp hpw2
    by_cases hhit : b.id = book_id ∧ (new_status = "в наличии" ∨ new_status = "выдана")
    · rw [changeLoop_cons_hit book_id new_status b rest hhit.1 hhit.2] at h
      obtain rfl := (Option.some.injEq _ _).mp h
      have hrest : (rest.map fun x =>
          if x.id = book_id then { x with status := new_status } else x) = rest.map id := by
        apply List.map_congr_left
        intro x hx
        have hne : b.id ≠ x.id := hpw'.1 x.id (List.mem_map_of_mem Book.id hx)
        have hxne : ¬ x.id = book_id := fun hxe => hne (by rw [hhit.1, hxe])
        simp [hxne]
      simp [hhit.1, hrest]
    · rw [changeLoop_cons_miss book_id new_status b rest hhit] at h
      obtain ⟨a, ha, rfl⟩ := Option.map_eq_some'.mp h
      have hval : (new_status = "в наличии" ∨ new_status = "выдана") :=
        ((changeLoop_isSome_iff book_id new_status rest).mp (by rw [ha]; rfl)).2
      have hbid : ¬ b.id = book_id := fun hbe => hhit ⟨hbe, hval⟩
      simp only [List.map_cons, if_neg hbid]
      exact congrArg (b :: ·) (ih a hpw'.2 ha)

/-- C4: `change_book_status` succeeds — returning `True`, rewriting that
record's status and persisting the snapshot — exactly when a record with
the given id exists and the new status is one of the two enumerated
values; in every other case it returns `False` and the state (records and
file alike) is exactly unchanged.  The uniqueness hypothesis says the
store's ids are pairwise distinct, which holds in every state the program
reaches. -/
theorem change_book_status_spec (st : LibState) (book_id : Int) (new_status : String)
    (h : (st.books.map Book.id).Pairwise (· ≠ ·)) :
    ((changeBookStatus st book_id new_status).2 = true ↔
      ((∃ b ∈ st.books, b.id = book_id) ∧
        (new_status = "в наличии" ∨ new_status = "выдана"))) ∧
    ((changeBookStatus st book_id new_status).2 = true →
      (changeBookStatus st book_id new_status).1.books =
        (st.books.map fun b => if b.id = book_id then { b with status := new_status } else b) ∧
      (changeBookStatus st book_id new_status).1.file =
        some ((changeBookStatus st book_id new_status).1.books)) ∧
    ((changeBookStatus st book_id new_status).2 = false →
      (changeBookStatus st book_id new_status).1 = st) := by
  rcases hcl : changeLoop book_id new_status st.books with _ | bs'
  · have hiff := changeLoop_isSome_iff book_id new_status st.books
    rw [hcl] at hiff
    simp only [changeBookStatus, hcl]
    refine ⟨?_, ?_, ?_⟩
    · simpa using hiff
    · intro hh
      exact absurd hh (by simp)
    · intro _
      trivial
  · have hiff := changeLoop_isSome_iff book_id new_status st.books
    rw [hcl] at hiff
    have hmap := changeLoop_some_eq_map book_id new_status st.books bs' h hcl
    simp only [changeBookStatus, hcl]
    refine ⟨?_, ?_, ?_⟩
    · simpa using hiff
    · intro _
      exact ⟨hmap, rfl⟩
    · intro hh
      exact absurd hh (by simp)

/-- C4 witness: on a one-book store with id 1, changing the status of
book 1 to `"выдана"` succeeds, rewrites exactly that record and persists. -/
theorem change_book_status_spec_w :
    (changeBookStatus { books := [mkBook "Dune" "Herbert" 1965 1], file := none } 1 "выдана").2 = true ∧
    (changeBookStatus { books := [mkBook "Dune" "Herbert" 1965 1], file := none } 1 "выдана").1.books =
      ([mkBook "Dune" "Herbert" 1965 1].map fun b => if b.id = 1 then { b with status := "выдана" } else b) := by
  have h := change_book_status_spec { books := [mkBook "Dune" "Herbert" 1965 1], file := none } 1 "выдана" (by simp)
  have ht : (changeBookStatus { books := [mkBook "Dune" "Herbert" 1965 1], file := none } 1 "выдана").2 = true :=
    h.1.mpr ⟨⟨mkBook "Dune" "Herbert" 1965 1, by simp, rfl⟩, Or.inr rfl⟩
  exact ⟨ht, (h.2.1 ht).1⟩

/-!  C2: ids returned by `add_book`. -/

theorem le_foldl_max (xs : List Int) (a : Int) : a ≤ xs.foldl max a := by
  induction xs generalizing a with
  | nil => exact le_refl a
  | cons x xs ih => exact le_trans (le_max_left a x) (ih (max a x))

theorem mem_le_foldl_max (xs : List Int) (a x : Int) (hx : x ∈ xs) : x ≤ xs.foldl max a := by
  induction xs generalizing a with
  | nil => cases hx
  | cons y ys ih =>
    rcases List.mem_cons.mp hx with h | h
    · subst h
      exact le_trans (le_max_right a x) (le_foldl_max ys (max a x))
    · exact ih (max a y) h

theorem le_pyMaxD0 (xs : List Int) (x : Int) (hx : x ∈ xs) : x ≤ pyMaxD0 xs := by
  cases xs with
  | nil => cases hx
  | cons y ys =>
    rcases List.mem_cons.mp hx with h | h
    · subst h
      exact le_foldl_max ys x
    · exact mem_le_foldl_max ys y x h


theorem addBook_ids (st : LibState) (title author : String) (year : Int) :
    (addBook st title author year).1.books.map Book.id =
      st.books.map Book.id ++ [pyMaxD0 (st.books.map Book.id) + 1] := by
  simp [addBook, saveBooks, mkBook]

theorem runAdds_gt (adds : List (String × String × Int)) :
    ∀ st : LibState, ∀ i ∈ (runAdds st adds).2, pyMaxD0 (st.books.map Book.id) < i := by
  induction adds with
  | nil =>
    intro st i hi
    cases hi
  | cons p rest ih =>
    intro st i hi
    obtain ⟨title, author, year⟩ := p
    simp only [runAdds] at hi
    rcases List.mem_cons.mp hi with h | h
    · rw [h]
      show pyMaxD0 (st.books.map Book.id) < pyMaxD0 (st.books.map Book.id) + 1
      omega
    · have h1 := ih (addBook st title author year).1 i h
      have h2 : pyMaxD0 (st.books.map Book.id) + 1 ≤
          pyMaxD0 ((addBook st title author year).1.books.map Book.id) := by
        apply le_pyMaxD0
        rw [addBook_ids]
        exact List.mem_append_right _ (List.mem_singleton.mpr rfl)
      omega

theorem runAdds_pairwise_lt (adds : List (String × String × Int)) :
    ∀ st : LibState, ((runAdds st adds).2).Pairwise (· < ·) := by
  induction adds with
  | nil =>
    intro st
    exact List.Pairwise.nil
  | cons p rest ih =>
    intro st
    obtain ⟨title, author, year⟩ := p
    simp only [runAdds]
    refine List.Pairwise.cons ?_ (ih (addBook st title author year).1)
    intro j hj
    have h1 := runAdds_gt rest (addBook st title author year).1 j hj
    have h2 : (addBook st title author year).2 ≤
        pyMaxD0 ((addBook st title author year).1.books.map Book.id) := by
      apply le_pyMaxD0
      rw [addBook_ids]
      show pyMaxD0 (st.books.map Book.id) + 1 ∈ _
      exact List.mem_append_right _ (List.mem_singleton.mpr rfl)
    exact lt_of_le_of_lt h2 h1

/-- C2: each `add_book` call returns exactly the spec's next id — one
more than the current maximum id, 1 on an empty catalog — and over any
sequence of `add_book` calls from any starting state the returned ids are
strictly increasing in call order, hence pairwise distinct. -/
theorem add_ids_spec :
    (∀ (st : LibState) (title author : String) (year : Int),
      (addBook st title author year).2 = specNextId st.books) ∧
    (∀ (st : LibState) (adds : List (String × String × Int)),
      ((runAdds st adds).2).Pairwise (· < ·) ∧ ((runAdds st adds).2).Pairwise (· ≠ ·)) := by
  constructor
  · intro st title author year
    show pyMaxD0 (st.books.map Book.id) + 1 = specNextId st.books
    cases hb : st.books.map Book.id with
    | nil => simp [specNextId, hb, pyMaxD0]
    | cons x xs => simp [specNextId, hb, pyMaxD0, List.max?]
  · intro st adds
    refine ⟨runAdds_pairwise_lt adds st, ?_⟩
    exact (runAdds_pairwise_lt adds st).imp (fun hlt => ne_of_lt hlt)

/-!  C7 and C8: invariants of the states the program itself reaches. -/


theorem run_preserves (P : LibState → Prop)
    (hstep : ∀ st op, P st → P (applyOp st op)) :
    ∀ (ops : List Op) (st : LibState), P st → P (run st ops) := by
  intro ops
  induction ops with
  | nil => intro st h; exact h
  | cons op rest ih =>
    intro st h
    exact ih (applyOp st op) (hstep st op h)

theorem removeBook_state (st : LibState) (book_id : Int) :
    ((removeBook st book_id).1.books = (st.books.filter fun book => book.id ≠ book_id)) ∧
    ((removeBook st book_id).1.file = some (st.books.filter fun book => book.id ≠ book_id) ∨
      (removeBook st book_id).1.file = st.file) := by
  unfold removeBook
  simp only []
  split
  · exact ⟨rfl, Or.inl rfl⟩
  · exact ⟨rfl, Or.inr rfl⟩

theorem statusInv_applyOp (st : LibState) (op : Op) (h : stateStatusInv st) :
    stateStatusInv (applyOp st op) := by
  obtain ⟨hbooks, hfile⟩ := h
  cases op with
  | add title author year =>
    have hbooks' : statusInv (st.books ++
        [mkBook title author year (pyMaxD0 (st.books.map Book.id) + 1)]) := by
      intro b hb
      rcases List.mem_append.mp hb with hb | hb
      · exact hbooks b hb
      · rw [List.mem_singleton.mp hb]
        left
        rfl
    refine ⟨hbooks', fun bs hbs => ?_⟩
    have heq : some (st.books ++
        [mkBook title author year (pyMaxD0 (st.books.map Book.id) + 1)]) = some bs := hbs
    obtain rfl := (Option.some.injEq _ _).mp heq
    exact hbooks'
  | remove book_id =>
    have hkept : statusInv (st.books.filter fun book => book.id ≠ book_id) := by
      intro b hb
      exact hbooks b (List.mem_of_mem_filter hb)
    have hrb := removeBook_state st book_id
    constructor
    · show statusInv ((removeBook st book_id).1.books)
      rw [hrb.1]
      exact hkept
    · intro bs hbs
      have hbs2 : (removeBook st book_id).1.file = some bs := hbs
      rcases hrb.2 with hf | hf
      · rw [hf] at hbs2
        obtain rfl := (Option.some.injEq _ _).mp hbs2
        exact hkept
      · rw [hf] at hbs2
        exact hfile bs hbs2
  | setStatus book_id new_status =>
    rcases hcl : changeLoop book_id new_status st.books with _ | bs'
    · show stateStatusInv (changeBookStatus st book_id new_status).1
      rw [show (changeBookStatus st book_id new_status).1 = st from by
        simp [changeBookStatus, hcl]]
      exact ⟨hbooks, hfile⟩
    · have hval : new_status = "в наличии" ∨ new_status = "выдана" :=
        ((changeLoop_isSome_iff book_id new_status st.books).mp (by rw [hcl]; rfl)).2
      have hbs' : statusInv bs' := by
        intro b hb
        rcases changeLoop_some_mem book_id new_status st.books bs' hcl b hb with hin | hst
        · exact hbooks b hin
        · rw [hst]
          exact hval
      show stateStatusInv (changeBookStatus st book_id new_status).1
      rw [show (changeBookStatus st book_id new_status).1 =
          saveBooks { st with books := bs' } from by simp [changeBookStatus, hcl]]
      refine ⟨hbs', fun bs hbs => ?_⟩
      obtain rfl := (Option.some.injEq _ _).mp hbs
      exact hbs'
  | reload =>
    show stateStatusInv { st with books := st.file.getD [] }
    refine ⟨?_, fun bs hbs => hfile bs hbs⟩
    cases hf : st.file with
    | none =>
      intro b hb
      exact absurd hb (List.not_mem_nil b)
    | some bs0 =>
      intro b hb
      exact hfile bs0 hf b hb

theorem idsInv_applyOp (st : LibState) (op : Op) (h : stateIdsInv st) :
    stateIdsInv (applyOp st op) := by
  obtain ⟨hbooks, hfile⟩ := h
  cases op with
  | add title author year =>
    have hids : idsInv (st.books ++
        [mkBook title author year (pyMaxD0 (st.books.map Book.id) + 1)]) := by
      unfold idsInv
      rw [List.map_append, List.pairwise_append]
      refine ⟨hbooks, by simp, ?_⟩
      intro a ha b hb
      have hb' : b = pyMaxD0 (st.books.map Book.id) + 1 := by
        simpa [mkBook] using hb
      have ha' : a ≤ pyMaxD0 (st.books.map Book.id) := le_pyMaxD0 _ a ha
      omega
    refine ⟨hids, fun bs hbs => ?_⟩
    have heq : some (st.books ++
        [mkBook title author year (pyMaxD0 (st.books.map Book.id) + 1)]) = some bs := hbs
    obtain rfl := (Option.some.injEq _ _).mp heq
    exact hids
  | remove book_id =>
    have hkept : idsInv (st.books.filter fun book => book.id ≠ book_id) :=
      hbooks.sublist ((List.filter_sublist st.books).map Book.id)
    have hrb := removeBook_state st book_id
    constructor
    · show idsInv ((removeBook st book_id).1.books)
      rw [hrb.1]
      exact hkept
    · intro bs hbs
      have hbs2 : (removeBook st book_id).1.file = some bs := hbs
      rcases hrb.2 with hf | hf
      · rw [hf] at hbs2
        obtain rfl := (Option.some.injEq _ _).mp hbs2
        exact hkept
      · rw [hf] at hbs2
        exact hfile bs hbs2
  | setStatus book_id new_status =>
    rcases hcl : changeLoop book_id new_status st.books with _ | bs'
    · show stateIdsInv (changeBookStatus st book_id new_status).1
      rw [show (changeBookStatus st book_id new_status).1 = st from by
        simp [changeBookStatus, hcl]]
      exact ⟨hbooks, hfile⟩
    · have hbs' : idsInv bs' := by
        unfold idsInv
        rw [changeLoop_some_ids book_id new_status st.books bs' hcl]
        exact hbooks
      show stateIdsInv (changeBookStatus st book_id new_status).1
      rw [show (changeBookStatus st book_id new_status).1 =
          saveBooks { st with books := bs' } from by simp [changeBookStatus, hcl]]
      refine ⟨hbs', fun bs hbs => ?_⟩
      obtain rfl := (Option.some.injEq _ _).mp hbs
      exact hbs'
  | reload =>
    show stateIdsInv { st with books := st.file.getD [] }
    refine ⟨?_, fun bs hbs => hfile bs hbs⟩
    cases hf : st.file with
    | none =>
      show idsInv ((none : Option (List Book)).getD [])
      exact List.Pairwise.nil
    | some bs0 =>
      show idsInv ((some bs0).getD [])
      exact hfile bs0 hf

/-- C7 amended: in every state the program itself reaches (any sequence
of adds, removals, status changes and reloads from an absent backing
file), every record's status — in memory, in the persisted snapshot, and
in everything `search_books` or `get_all_books` returns for display — is
one of the two enumerated values.  (The load path itself performs no status
validation, so this does not extend to externally written files; see the
counterexample.) -/
theorem reachable_status_valid (st : LibState) (h : reachable st) :
    (∀ b ∈ st.books, b.status = "в наличии" ∨ b.status = "выдана") ∧
    (∀ bs, st.file = some bs → ∀ b ∈ bs, b.status = "в наличии" ∨ b.status = "выдана") ∧
    (∀ query, ∀ b ∈ searchBooks st query, b.status = "в наличии" ∨ b.status = "выдана") ∧
    (∀ b ∈ getAllBooks st, b.status = "в наличии" ∨ b.status = "выдана") := by
  obtain ⟨ops, rfl⟩ := h
  have h0 : stateStatusInv initState := by
    constructor
    · intro b hb
      exact absurd hb (List.not_mem_nil b)
    · intro bs hbs
      exact Option.noConfusion hbs
  have hinv : stateStatusInv (run initState ops) :=
    run_preserves stateStatusInv statusInv_applyOp ops initState h0
  refine ⟨hinv.1, hinv.2, ?_, hinv.1⟩
  intro query b hb
  simp only [searchBooks] at hb
  exact hinv.1 b (List.mem_of_mem_filter hb)

/-- C7 witness: the invariant instantiated at the concrete reachable
state after adding one book and checking it out. -/
theorem reachable_status_valid_w :
    (∀ b ∈ (run initState [Op.add "Dune" "Herbert" 1965, Op.setStatus 1 "выдана"]).books,
      b.status = "в наличии" ∨ b.status = "выдана") ∧
    (∀ bs, (run initState [Op.add "Dune" "Herbert" 1965, Op.setStatus 1 "выдана"]).file = some bs →
      ∀ b ∈ bs, b.status = "в наличии" ∨ b.status = "выдана") ∧
    (∀ query, ∀ b ∈ searchBooks (run initState [Op.add "Dune" "Herbert" 1965, Op.setStatus 1 "выдана"]) query,
      b.status = "в наличии" ∨ b.status = "выдана") ∧
    (∀ b ∈ getAllBooks (run initState [Op.add "Dune" "Herbert" 1965, Op.setStatus 1 "выдана"]),
      b.status = "в наличии" ∨ b.status = "выдана") :=
  reachable_status_valid _ ⟨[Op.add "Dune" "Herbert" 1965, Op.setStatus 1 "выдана"], rfl⟩

/-- C7 counterexample: a structurally well-formed backing file whose
record carries the status `"утеряна"` loads without error, recovery or
validation — the store then starts with, and any listing displays, a
record whose status is outside the two enumerated values. -/
theorem load_accepts_foreign_status :
    (loadBooks (FileState.validJson (Json.arr [Json.obj [("id", Json.int 1),
        ("title", Json.str "Dune"), ("author", Json.str "Herbert"),
        ("year", Json.int 1965), ("status", Json.str "утеряна")]]))).map (List.map BookD.status) =
      Except.ok [Json.str "утеряна"] ∧
    ("утеряна" : String) ≠ "в наличии" ∧ ("утеряна" : String) ≠ "выдана" := by
  refine ⟨rfl, by decide, by decide⟩

/-- C8 amended: in every state the program itself reaches (any sequence
of adds, removals, status changes and reloads from an absent backing
file), the record ids — in memory and in the persisted snapshot — are
pairwise distinct.  (The load path itself performs no id deduplication, so
this does not extend to externally written files; see the
counterexample.) -/
theorem reachable_ids_distinct (st : LibState) (h : reachable st) :
    ((st.books.map Book.id).Pairwise (· ≠ ·)) ∧
    (∀ bs, st.file = some bs → (bs.map Book.id).Pairwise (· ≠ ·)) := by
  obtain ⟨ops, rfl⟩ := h
  have h0 : stateIdsInv initState := by
    constructor
    · exact List.Pairwise.nil
    · intro bs hbs
      exact Option.noConfusion hbs
  exact run_preserves stateIdsInv idsInv_applyOp ops initState h0

/-- C8 witness: the invariant instantiated at the concrete reachable
state after two adds and a removal. -/
theorem reachable_ids_distinct_w :
    (((run initState [Op.add "Dune" "Herbert" 1965, Op.add "Foundation" "Asimov" 1951,
        Op.remove 1]).books.map Book.id).Pairwise (· ≠ ·)) ∧
    (∀ bs, (run initState [Op.add "Dune" "Herbert" 1965, Op.add "Foundation" "Asimov" 1951,
        Op.remove 1]).file = some bs → (bs.map Book.id).Pairwise (· ≠ ·)) :=
  reachable_ids_distinct _
    ⟨[Op.add "Dune" "Herbert" 1965, Op.add "Foundation" "Asimov" 1951, Op.remove 1], rfl⟩

/-- C8 counterexample: a structurally well-formed backing file in which
two records share id 7 loads without error or deduplication, so the
store's state right after construction holds two records with the same
id. -/
theorem load_accepts_duplicate_ids :
    (loadBooks (FileState.validJson (Json.arr [
        Json.obj [("id", Json.int 7), ("title", Json.str "A"), ("author", Json.str "B"),
          ("year", Json.int 2000), ("status", Json.str "в наличии")],
        Json.obj [("id", Json.int 7), ("title", Json.str "C"), ("author", Json.str "D"),
          ("year", Json.int 2001), ("status", Json.str "в наличии")]]))).map (List.map BookD.id) =
      Except.ok [Json.int 7, Json.int 7] ∧
    ¬ (([7, 7] : List Int).Pairwise (· ≠ ·)) := by
  refine ⟨rfl, by decide⟩

/-!  C3: the search predicate, compared with the spec's wording.  The
only difference between the code's filter and the spec's description is
that the code compares the lowercased query with `str(book.year)`, while
the spec speaks of the query itself; the lemmas below show lowercasing
cannot change a decimal numeral, so the two coincide. -/

theorem toNat_ofNat_valid (n : Nat) (h : n < 55296) : (Char.ofNat n).toNat = n := by
  have hv : n.isValidChar := Or.inl h
  simp [Char.ofNat, hv, Char.ofNatAux, Char.toNat, UInt32.ofNat', UInt32.toNat]

theorem pyLowerChar_fix (c : Char) (h : c.toNat < 65) : pyLowerChar c = c := by
  unfold pyLowerChar
  rw [if_neg]
  omega

theorem pyLowerChar_eq_low (c' c : Char) (hc : c.toNat < 97) (h : pyLowerChar c' = c) :
    c' = c := by
  unfold pyLowerChar at h
  by_cases hcnd : 65 ≤ c'.toNat ∧ c'.toNat ≤ 90
  · rw [if_pos hcnd] at h
    obtain ⟨h1, h2⟩ := hcnd
    have h32 : (Char.ofNat (c'.toNat + 32)).toNat = c'.toNat + 32 :=
      toNat_ofNat_valid _ (by omega)
    rw [h] at h32
    exact absurd hc (by omega)
  · rw [if_neg hcnd] at h
    exact h

theorem map_pyLowerChar_cancel : ∀ (ls ds : List Char), (∀ c ∈ ds, c.toNat < 97) →
    ls.map pyLowerChar = ds → ls = ds := by
  intro ls
  induction ls with
  | nil =>
    intro ds _ h
    exact h
  | cons c cs ih =>
    intro ds hds h
    cases ds with
    | nil => exact absurd h (by simp)
    | cons d ds' =>
      rw [List.map_cons] at h
      injection h with h1 h2
      have hcd : c = d := pyLowerChar_eq_low c d (hds d (List.mem_cons_self d ds')) h1
      have hcs : cs = ds' := ih ds' (fun c' hc' => hds c' (List.mem_cons_of_mem d hc')) h2
      rw [hcd, hcs]

theorem digitChar_lt65 (k : Nat) (h : k < 10) : (Nat.digitChar k).toNat < 65 := by
  interval_cases k <;> decide

theorem toDigitsCore_chars (fuel : Nat) : ∀ (n : Nat) (ds : List Char),
    (∀ c ∈ ds, c.toNat < 65) → ∀ c ∈ Nat.toDigitsCore 10 fuel n ds, c.toNat < 65 := by
  induction fuel with
  | zero =>
    intro n ds hds c hc
    simp only [Nat.toDigitsCore] at hc
    exact hds c hc
  | succ fuel ih =>
    intro n ds hds c hc
    by_cases hz : n / 10 = 0
    · simp only [Nat.toDigitsCore, hz, if_true] at hc
      rcases List.mem_cons.mp hc with hc | hc
      · rw [hc]
        exact digitChar_lt65 _ (Nat.mod_lt n (by norm_num))
      · exact hds c hc
    · simp only [Nat.toDigitsCore, hz, if_false] at hc
      refine ih (n / 10) (Nat.digitChar (n % 10) :: ds) ?_ c hc
      intro c' hc'
      rcases List.mem_cons.mp hc' with hc' | hc'
      · rw [hc']
        exact digitChar_lt65 _ (Nat.mod_lt n (by norm_num))
      · exact hds c' hc'

theorem natRepr_chars (n : Nat) : ∀ c ∈ (Nat.repr n).data, c.toNat < 65 := by
  intro c hc
  have hd : (Nat.repr n).data = Nat.toDigitsCore 10 (n + 1) n [] := rfl
  rw [hd] at hc
  exact toDigitsCore_chars (n + 1) n [] (fun c' hc' => absurd hc' (List.not_mem_nil c')) c hc

/-- Every character of the decimal rendering of an int is a digit or the
minus sign, in particular below code point 65. -/
theorem pyIntStr_chars (i : Int) : ∀ c ∈ (pyIntStr i).data, c.toNat < 65 := by
  cases i with
  | ofNat m => exact natRepr_chars m
  | negSucc m =>
    intro c hc
    have hd : (pyIntStr (Int.negSucc m)).data = '-' :: (Nat.repr (m + 1)).data := rfl
    rw [hd] at hc
    rcases List.mem_cons.mp hc with hc | hc
    · rw [hc]
      decide
    · exact natRepr_chars (m + 1) c hc

/-- Lowercasing a string equals a decimal numeral exactly when the string
already equals it: every numeral character is unchanged by lowercasing
and is not the lowercase image of any other character. -/
theorem pyLower_eq_pyIntStr_iff (q : String) (y : Int) :
    pyLower q = pyIntStr y ↔ q = pyIntStr y := by
  constructor
  · intro h
    have hdata : q.data.map pyLowerChar = (pyIntStr y).data := congrArg String.data h
    have hq : q.data = (pyIntStr y).data :=
      map_pyLowerChar_cancel q.data (pyIntStr y).data
        (fun c hc => lt_trans (pyIntStr_chars y c hc) (by norm_num)) hdata
    exact string_ext hq
  · intro h
    rw [h]
    apply string_ext
    show (pyIntStr y).data.map pyLowerChar = (pyIntStr y).data
    have hcong : (pyIntStr y).data.map pyLowerChar = (pyIntStr y).data.map (fun c => c) :=
      List.map_congr_left (fun c hc => pyLowerChar_fix c (pyIntStr_chars y c hc))
    rw [hcong]
    exact List.map_id' (pyIntStr y).data

theorem string_beq_congr (a b c d : String) (h : a = b ↔ c = d) : (a == b) = (c == d) := by
  by_cases hab : a = b
  · rw [show (a == b) = true from beq_iff_eq.mpr hab,
      show (c == d) = true from beq_iff_eq.mpr (h.mp hab)]
  · rw [show (a == b) = false from beq_eq_false_iff_ne.mpr hab,
      show (c == d) = false from beq_eq_false_iff_ne.mpr (fun hcd => hab (h.mpr hcd))]


/-- C3: `search_books` returns exactly the records matching the spec's
predicate — case-insensitive substring on title or author, or the query
equal to the year as text — in the store's order (a sublist of the
books), with the empty list (never an error) when nothing matches; and
concretely the query `"2020"` matches the record with year 2020 but not
the one with year 2021. -/
theorem search_books_spec :
    (∀ (st : LibState) (query : String),
      searchBooks st query = st.books.filter (searchSpecMatches query)) ∧
    (∀ (st : LibState) (query : String), (searchBooks st query).Sublist st.books) ∧
    (∀ (st : LibState) (query : String),
      (∀ b ∈ st.books, searchSpecMatches query b = false) → searchBooks st query = []) ∧
    searchBooks { books := [bookYear2020, bookYear2021], file := none } "2020" = [bookYear2020] := by
  have hfilter : ∀ (st : LibState) (query : String),
      searchBooks st query = st.books.filter (searchSpecMatches query) := by
    intro st query
    simp only [searchBooks]
    apply List.filter_congr
    intro b hb
    unfold searchSpecMatches
    rw [string_beq_congr (pyLower query) (pyIntStr b.year) query (pyIntStr b.year)
      (pyLower_eq_pyIntStr_iff query b.year)]
  refine ⟨hfilter, ?_, ?_, ?_⟩
  · intro st query
    rw [hfilter]
    exact List.filter_sublist st.books
  · intro st query h
    rw [hfilter]
    refine List.filter_eq_nil_iff.mpr ?_
    intro a ha
    rw [h a ha]
    exact Bool.false_ne_true
  · decide

/-- C3 witness: searching an empty store returns the empty list. -/
theorem search_books_spec_w : searchBooks { books := [], file := none } "Asimov" = [] :=
  search_books_spec.2.2.1 { books := [], file := none } "Asimov"
    (fun b hb => absurd hb (List.not_mem_nil b))
